import Mathlib

set_option maxHeartbeats 1000000
set_option maxRecDepth 2000

namespace Adstxt

/-!
Shallow embedding of go-adstxt-crawler (src/adstxt.go).  Bytes of the input
are modelled as `Char` values (the file format is ASCII-compatible text and
every byte the code inspects -- \r, \n, '#', ',', '=' -- is a single byte).
The parts of the repository that are not under src/ (the record classifier
`parseRecords`, the crawler helpers `sendRequest`, `handleRedirect`,
`readBody`, `parseExpires`, and the `Request`/`Response`/`Records` types)
are modelled from the spec and marked as such in their doc comments.
-/

/-- Index of the first \r or \n in the buffered data, as computed by
`bytes.IndexAny(data, "\r\n")` in the split function of ParseBody
(src/adstxt.go line 109). -/
def indexAnyCRLF : List Char → Option Nat
  | [] => none
  | c :: rest =>
    if c = '\r' ∨ c = '\n' then some 0 else (indexAnyCRLF rest).map (· + 1)

/-- Advance computed by the split function of ParseBody (src/adstxt.go lines
110-118) once `bytes.IndexAny` has found the first \r or \n at index `i`:
a lone \n advances past it; a \r advances one byte, or two when the next
buffered byte is \n. -/
def splitAdv (data : List Char) (i : Nat) : Nat :=
  if data.getD i ' ' = '\n' then i + 1
  else if i + 1 < data.length ∧ data.getD (i + 1) ' ' = '\n' then i + 2
  else i + 1

/-- The custom `bufio.SplitFunc` closure defined inside ParseBody
(src/adstxt.go lines 105-126).  Given the currently buffered `data` and the
`atEOF` flag it returns the number of bytes to advance and the token, with
`none` standing for Go's nil token (request more data / no token at EOF). -/
def split (data : List Char) (atEOF : Bool) : Nat × Option (List Char) :=
  if atEOF ∧ data = [] then (0, none)
  else
    match indexAnyCRLF data with
    | some i => (splitAdv data i, some (data.take i))
    | none => if atEOF then (data.length, some data) else (0, none)

/-- Outcome of driving the scanner over the whole input: the list of tokens,
or `tooLong` for `bufio.ErrTooLong`, or `outOfFuel` when the recursion bound
was exhausted (never reached for the fuel chosen by `scanLines`). -/
inductive RunRes where
  | outOfFuel
  | tooLong
  | done (lines : List (List Char))
deriving DecidableEq

/-- Buffer growth of `bufio.Scanner.Scan`: the new size is twice the old one
(or the 4096-byte initial allocation when the buffer is still empty), capped
at `MaxScanTokenSize` = 65536. -/
def newCap (c : Nat) : Nat := min (if 2 * c = 0 then 4096 else 2 * c) 65536

/-- Model of the loop `for scanner.Scan() { ... }` of ParseBody (src/adstxt.go
lines 128-135), i.e. of `bufio.Scanner.Scan` reading from the
`bytes.Reader` over the input: `w` is the buffered window `buf[start:end]`,
`c` is `len(buf)`, `rest` the bytes the reader has not yet delivered, and
`eof` whether the reader has reported `io.EOF`.  Each recursive call is one
action of Scan's loop, in Scan's order: try the split function on the
window; if it produces a token, emit it and advance; otherwise stop at EOF,
grow the buffer when the window fills it (failing with `ErrTooLong` once
`len(buf) >= MaxScanTokenSize` = 65536), record EOF when the reader is
drained, or read `min(len(buf)-window, remaining)` bytes (a `bytes.Reader`
delivers everything it can in one `Read`).  `fuel` only bounds the
recursion; `scanLines` supplies enough for the loop to run to completion. -/
def run : Nat → List Char → Nat → List Char → Bool → RunRes
  | 0, _, _, _, _ => .outOfFuel
  | fuel + 1, w, c, rest, eof =>
    match split w eof with
    | (adv, some tok) =>
      match run fuel (w.drop adv) c rest eof with
      | .done l => .done (tok :: l)
      | e => e
    | (_, none) =>
      if eof then .done []
      else if c ≤ w.length then
        if 65536 ≤ c then .tooLong
        else run fuel w (newCap c) rest eof
      else if rest = [] then run fuel w c [] true
      else run fuel (w ++ rest.take (c - w.length)) c (rest.drop (c - w.length)) eof

/-- The logical line sequence the scanner of ParseBody produces for input
`b`, starting from an empty buffer; the fuel dominates the loop measure
`2*|rest| + |w| + (65537-c) + eof-bit + 2` of `run`, so the result is never
`outOfFuel`. -/
def scanLines (b : List Char) : RunRes :=
  run (2 * b.length + 65600) [] 0 b false

/-- Whitespace as trimmed by `strings.TrimSpace` (ASCII range). -/
def isSpaceChar (c : Char) : Bool :=
  c == ' ' || c == '\t' || c == '\n' || c == '\r' || c == '\x0b' || c == '\x0c'

/-- Trim surrounding whitespace from a line. -/
def trim (l : List Char) : List Char :=
  ((l.dropWhile isSpaceChar).reverse.dropWhile isSpaceChar).reverse

/-- Modelled from the spec: the relationship enum of a Data Record
(spec section 3, DIRECT | RESELLER, matched case-insensitively). -/
inductive Rel where
  | direct
  | reseller
deriving DecidableEq

/-- Modelled from the spec: the Record tagged variant of spec section 3 --
a Data Record (AdSystemDomain, PublisherAccountID, RelationshipType,
optional CertificationAuthorityID) or a Variable Record (Name, Value); the
concrete Go record types are not under src/. -/
inductive Record where
  | dataRecord (adSystemDomain publisherAccountID : List Char)
      (relationshipType : Rel) (certificationAuthorityID : Option (List Char))
  | variableRecord (name value : List Char)
deriving DecidableEq

/-- Modelled from the spec: the ordered record sequence produced by the
Record Parser (spec section 3: order-preserving sequence of Records). -/
abbrev Records := List Record

/-- Split a line on every comma (Go `strings.Split(s, ",")`). -/
def splitOnComma : List Char → List (List Char)
  | [] => [[]]
  | c :: rest =>
    if c = ',' then [] :: splitOnComma rest
    else
      match splitOnComma rest with
      | [] => [[c]]
      | g :: gs => (c :: g) :: gs

/-- Split a line at the first '=' character, when present. -/
def splitFirstEq : List Char → Option (List Char × List Char)
  | [] => none
  | c :: rest =>
    if c = '=' then some ([], rest)
    else
      match splitFirstEq rest with
      | none => none
      | some (l, r) => some (c :: l, r)

/-- Uppercase a token (canonicalization of a Variable Record name). -/
def upper (l : List Char) : List Char := l.map Char.toUpper

/-- Modelled from the spec: case-insensitive parse of the RelationshipType
field (spec section 4.2: must case-insensitively equal DIRECT or RESELLER,
else the line is discarded). -/
def relOf (f : List Char) : Option Rel :=
  if upper f = (r"DIRECT").toList then some Rel.direct
  else if upper f = (r"RESELLER").toList then some Rel.reseller
  else none

/-- Modelled from the spec: the Data Record grammar of spec section 4.2 --
split the line on commas, trim each field, require at least 3 fields, let an
optional 4th field become the CertificationAuthorityID, and discard the line
unless the RelationshipType parses. -/
def parseDataLine (t : List Char) : Option Record :=
  let fields := (splitOnComma t).map trim
  if 3 ≤ fields.length then
    match relOf (fields.getD 2 []) with
    | some rel =>
      some (.dataRecord (fields.getD 0 []) (fields.getD 1 []) rel (fields.get? 3))
    | none => none
  else none

/-- Modelled from the spec: the per-line classifier of the Record Parser
(spec section 4.2); `parseRecords`, the function ParseBody calls on the
scanned lines (src/adstxt.go line 141), is not under src/.  Trim the line;
skip it when empty or starting with '#'; classify it as a Variable Record
when it is NAME=VALUE with a comma-free nonempty NAME before the first '=',
and otherwise attempt the Data Record grammar. -/
def parseLine (line : List Char) : Option Record :=
  let t := trim line
  if t = [] then none
  else if t.getD 0 ' ' = '#' then none
  else
    match splitFirstEq t with
    | some (name, value) =>
      if name ≠ [] ∧ name.all (fun c => !(c == ',')) then
        some (.variableRecord (upper (trim name)) (trim value))
      else parseDataLine t
    | none => parseDataLine t

/-- Modelled from the spec: `parseRecords` maps the classifier over the
scanned lines in order, discarding lines that yield no record (spec section
4.2: malformed, comment and blank lines are dropped silently). -/
def parseRecords (lines : List (List Char)) : Records :=
  lines.filterMap parseLine

/-- ParseBody (src/adstxt.go lines 103-142): scan the input into lines with
the custom split function and classify each line; `none` models the non-nil
error return, which happens exactly when `scanner.Err()` reports an error --
with a `bytes.Reader` source the only possible one is `bufio.ErrTooLong`. -/
def ParseBody (b : List Char) : Option Records :=
  match scanLines b with
  | .done l => some (parseRecords l)
  | _ => none

/-- Bytes remaining after a \r boundary: when the byte after the \r is \n the
pair is consumed as one boundary, otherwise only the \r is consumed.  Used
by the claim-side splitter `regexSplitAux`. -/
def afterCR (rest : List Char) : List Char :=
  if rest.headD ' ' = '\n' then rest.tail else rest

/-- Definition following the claim wording (C1): split the input on the
pattern \r?\n|\r -- a boundary at each lone \n, each \r\n pair consumed as
one boundary, each lone \r a boundary -- keeping any final unterminated
fragment as a last line and producing zero lines for empty input.  `acc`
holds the current line, reversed. -/
def regexSplitAux : List Char → List Char → List (List Char)
  | [], acc => if acc = [] then [] else [acc.reverse]
  | c :: rest, acc =>
    if c = '\n' then acc.reverse :: regexSplitAux rest []
    else if c = '\r' then acc.reverse :: regexSplitAux (afterCR rest) []
    else regexSplitAux rest (c :: acc)
termination_by s _ => s.length
decreasing_by
  · simp
  · simp only [afterCR, List.length_cons]
    split
    · have h := List.length_tail rest
      omega
    · omega
  · simp

/-- Reference line splitting on \r?\n|\r, per the wording of claim C1. -/
def regexSplit (b : List Char) : List (List Char) := regexSplitAux b []

/-- Request mirrors the Go `Request`: the Domain identity and the URL of the
ads.txt endpoint; Get rewrites the URL field in place on redirects.
Modelled from the spec (section 3): the type declaration itself is not under
src/, only its uses in Get. -/
structure Request where
  domain : List Char
  url : List Char
deriving DecidableEq

/-- What one fetch of the crawler yields, as seen by Get.  Modelled from the
spec: `newCrawler`, `sendRequest`, `handleRedirect`, `readBody` and
`parseExpires` (src/adstxt.go lines 19, 30, 40, 60) are not under src/, so
the transport is an oracle: `statusCode` is the HTTP status; `location` the
redirect target `handleRedirect` extracts (`none` = it fails); `body` the
`readBody` outcome (`none` = read error); `expiresAt` the `parseExpires`
outcome (`none` = parse failure, spec section 4.4: swallowed). -/
structure HTTPRes where
  statusCode : Nat
  location : Option (List Char)
  body : Option (List Char)
  expiresAt : Option Nat
deriving DecidableEq

/-- Error taxonomy of Get, one constructor per `return nil, err` site of
src/adstxt.go lines 21, 32, 37, 42, 48, 68; the client and server errors
carry the status, domain and URL interpolated by the format strings. -/
inductive CrawlErr where
  | transport
  | redirect
  | client (status : Nat) (domain url : List Char)
  | read
  | parse
  | server (status : Nat) (domain url : List Char)
deriving DecidableEq

/-- Response mirrors the Go `Response` built at src/adstxt.go lines 52-57:
the originating request, the parsed records and the expiration instant
(seconds, since the model measures time in seconds). -/
structure Response where
  request : Request
  records : Records
  expires : Nat
deriving DecidableEq

/-- Seconds added by `time.Now().UTC().AddDate(0, 0, 7)` (src/adstxt.go line
56): seven civil days in UTC are exactly 7*86400 seconds. -/
def sevenDays : Nat := 604800

/-- Get (src/adstxt.go lines 14-71): the fetch/classify loop.  `send` is the
transport oracle keyed by the current URL, `now` the current UTC time in
seconds, and `fuel` bounds the unbounded Go `for` loop of line 18.  The
result carries, in order: the list of URLs fetched (one entry per
`sendRequest` call, in order), the final state of the caller's Request
(whose URL field Go mutates in place at line 34), and the returned
`(*Response, error)` pair -- `none` when the loop was still running after
`fuel` iterations. -/
def Get (send : List Char → Option HTTPRes) (now : Nat) :
    Nat → Request → List (List Char) × Request × Option (Option Response × Option CrawlErr)
  | 0, req => ([], req, none)
  | fuel + 1, req =>
    match send req.url with
    | none => ([req.url], req, some (none, some .transport))
    | some res =>
      if 300 ≤ res.statusCode ∧ res.statusCode < 400 then
        match res.location with
        | none => ([req.url], req, some (none, some .redirect))
        | some loc =>
          let next := Get send now fuel { req with url := loc }
          (req.url :: next.1, next.2.1, next.2.2)
      else if 400 ≤ res.statusCode ∧ res.statusCode < 500 then
        ([req.url], req, some (none, some (.client res.statusCode req.domain req.url)))
      else if res.statusCode = 200 then
        match res.body with
        | none => ([req.url], req, some (none, some .read))
        | some body =>
          match ParseBody body with
          | none => ([req.url], req, some (none, some .parse))
          | some records =>
            ([req.url], req, some (some {
                request := req
                records := records
                expires :=
                  match res.expiresAt with
                  | some e => e
                  | none => now + sevenDays }, none))
      else ([req.url], req, some (none, some (.server res.statusCode req.domain req.url)))

/-- Concrete Request used by the witnesses. -/
def reqFix : Request := ⟨['d'], ['u']⟩

/-- Transport fixture: the starting URL redirects (301) to URL v, everything
else answers 200 with an empty body. -/
def sendFixA : List Char → Option HTTPRes := fun u =>
  if u = [('u' : Char)] then some ⟨301, some ['v'], none, none⟩
  else some ⟨200, none, some [], none⟩

/-- Transport fixture answering 404 everywhere. -/
def sendFixB : List Char → Option HTTPRes := fun _ => some ⟨404, none, none, none⟩

/-- Transport fixture answering 200 with a one-line body and no expiry. -/
def sendFixC : List Char → Option HTTPRes := fun _ => some ⟨200, none, some ['x', '\n'], none⟩

/-- Transport fixture answering 301 with a Location everywhere: a redirect cycle. -/
def sendFixD : List Char → Option HTTPRes := fun _ => some ⟨301, some ['v'], none, none⟩

/-! Helper lemmas about the split function. -/

theorem indexAnyCRLF_some_lt {w : List Char} {i : Nat}
    (h : indexAnyCRLF w = some i) : i < w.length := by
  induction w generalizing i with
  | nil => simp [indexAnyCRLF] at h
  | cons c rest ih =>
    simp only [indexAnyCRLF] at h
    split at h
    · simp at h
      simp [List.length_cons]
      omega
    · cases hx : indexAnyCRLF rest with
      | none => rw [hx] at h; simp at h
      | some j =>
        rw [hx] at h
        simp at h
        have := ih hx
        simp
        omega

theorem indexAnyCRLF_some_ne_nil {w : List Char} {i : Nat}
    (h : indexAnyCRLF w = some i) : w ≠ [] := by
  intro hw
  subst hw
  simp [indexAnyCRLF] at h

theorem splitAdv_pos (w : List Char) (i : Nat) : 1 ≤ splitAdv w i := by
  unfold splitAdv
  split
  · omega
  · split <;> omega

theorem splitAdv_le {w : List Char} {i : Nat}
    (h : indexAnyCRLF w = some i) : splitAdv w i ≤ w.length := by
  have hi := indexAnyCRLF_some_lt h
  unfold splitAdv
  split
  · omega
  · split <;> omega

theorem splitAdv_cons (c : Char) (rest : List Char) (j : Nat) :
    splitAdv (c :: rest) (j + 1) = splitAdv rest j + 1 := by
  unfold splitAdv
  have e1 : (c :: rest).getD (j + 1) ' ' = rest.getD j ' ' := List.getD_cons_succ
  have e2 : (c :: rest).getD (j + 1 + 1) ' ' = rest.getD (j + 1) ' ' := List.getD_cons_succ
  have e3 : (c :: rest).length = rest.length + 1 := List.length_cons c rest
  rw [e1, e2, e3]
  by_cases h1 : rest.getD j ' ' = '\n'
  · rw [if_pos h1, if_pos h1]
  · rw [if_neg h1, if_neg h1]
    by_cases h2 : j + 1 < rest.length ∧ rest.getD (j + 1) ' ' = '\n'
    · obtain ⟨h2a, h2b⟩ := h2
      have hp1 : j + 1 + 1 < rest.length + 1 ∧ rest.getD (j + 1) ' ' = '\n' :=
        ⟨by omega, h2b⟩
      rw [if_pos hp1, if_pos ⟨h2a, h2b⟩]
    · have hcn : ¬(j + 1 + 1 < rest.length + 1 ∧ rest.getD (j + 1) ' ' = '\n') :=
        fun hcon => h2 ⟨by omega, hcon.2⟩
      rw [if_neg h2, if_neg hcn]

theorem split_idx_some {w : List Char} {i : Nat} (eof : Bool)
    (h : indexAnyCRLF w = some i) :
    split w eof = (splitAdv w i, some (w.take i)) := by
  have hne := indexAnyCRLF_some_ne_nil h
  unfold split
  rw [if_neg (by simp [hne]), h]

theorem split_none_notEOF {w : List Char} (h : indexAnyCRLF w = none) :
    split w false = (0, none) := by
  unfold split
  rw [if_neg (by simp), h]
  simp

theorem split_nil_eof : split [] true = (0, none) := by
  unfold split
  simp

theorem split_final {w : List Char} (h : indexAnyCRLF w = none) (hne : w ≠ []) :
    split w true = (w.length, some w) := by
  unfold split
  rw [if_neg (by simp [hne]), h]
  simp

/-! One-step unfolding lemmas for the scanner loop. -/

theorem run_step_token {w : List Char} {i : Nat} (fuel c : Nat) (rest : List Char)
    (eof : Bool) (h : indexAnyCRLF w = some i) :
    run (fuel + 1) w c rest eof =
      match run fuel (w.drop (splitAdv w i)) c rest eof with
      | .done l => .done (w.take i :: l)
      | e => e := by
  simp only [run, split_idx_some eof h]

theorem run_step_grow {w : List Char} {c : Nat} (fuel : Nat) (rest : List Char)
    (h : indexAnyCRLF w = none) (h1 : c ≤ w.length) (h2 : c < 65536) :
    run (fuel + 1) w c rest false = run fuel w (newCap c) rest false := by
  simp only [run, split_none_notEOF h]
  rw [if_neg (by simp), if_pos h1, if_neg (by omega)]

theorem run_step_tooLong {w : List Char} {c : Nat} (fuel : Nat) (rest : List Char)
    (h : indexAnyCRLF w = none) (h1 : c ≤ w.length) (h2 : 65536 ≤ c) :
    run (fuel + 1) w c rest false = .tooLong := by
  simp only [run, split_none_notEOF h]
  rw [if_neg (by simp), if_pos h1, if_pos h2]

theorem run_step_eof {w : List Char} {c : Nat} (fuel : Nat)
    (h : indexAnyCRLF w = none) (h1 : w.length < c) :
    run (fuel + 1) w c [] false = run fuel w c [] true := by
  simp only [run, split_none_notEOF h]
  rw [if_neg (by simp), if_neg (by omega)]
  simp

theorem run_step_read {w : List Char} {c : Nat} {rest : List Char} (fuel : Nat)
    (h : indexAnyCRLF w = none) (h1 : w.length < c) (h2 : rest ≠ []) :
    run (fuel + 1) w c rest false =
      run fuel (w ++ rest.take (c - w.length)) c (rest.drop (c - w.length)) false := by
  simp only [run, split_none_notEOF h]
  rw [if_neg (by simp), if_neg (by omega), if_neg h2]

theorem run_step_fin_nil (fuel c : Nat) (rest : List Char) :
    run (fuel + 1) [] c rest true = .done [] := by
  simp only [run, split_nil_eof]
  simp

theorem run_step_final {w : List Char} (fuel c : Nat) (rest : List Char)
    (h : indexAnyCRLF w = none) (hne : w ≠ []) :
    run (fuel + 1) w c rest true =
      match run fuel [] c rest true with
      | .done l => .done (w :: l)
      | e => e := by
  simp only [run, split_final h hne, List.drop_length, List.take_length]

theorem newCap_lt {c : Nat} (h : c < 65536) : c < newCap c := by
  unfold newCap
  by_cases h0 : 2 * c = 0
  · rw [if_pos h0]
    omega
  · rw [if_neg h0]
    omega

theorem newCap_le (c : Nat) : newCap c ≤ 65536 := by
  unfold newCap
  omega

/-! The claim-side splitter consumes its input boundary by boundary exactly as
the split function reports it through indexAnyCRLF and splitAdv. -/

theorem regexSplitAux_spec : ∀ (w acc : List Char),
    regexSplitAux w acc =
      match indexAnyCRLF w with
      | none => if w = [] ∧ acc = [] then [] else [acc.reverse ++ w]
      | some i => (acc.reverse ++ w.take i) :: regexSplitAux (w.drop (splitAdv w i)) [] := by
  intro w
  induction w with
  | nil =>
    intro acc
    simp only [indexAnyCRLF, regexSplitAux]
    by_cases h : acc = [] <;> simp [h]
  | cons c rest ih =>
    intro acc
    by_cases hn : c = '\n'
    · subst hn
      rw [regexSplitAux]
      have hidx : indexAnyCRLF ('\n' :: rest) = some 0 := by
        simp [indexAnyCRLF]
      rw [hidx]
      have hadv : splitAdv ('\n' :: rest) 0 = 1 := by
        unfold splitAdv
        simp
      simp [hadv]
    · by_cases hr : c = '\r'
      · subst hr
        rw [regexSplitAux]
        rw [if_neg hn, if_pos rfl]
        have hidx : indexAnyCRLF ('\r' :: rest) = some 0 := by
          simp [indexAnyCRLF]
        rw [hidx]
        have hadv : List.drop (splitAdv ('\r' :: rest) 0) ('\r' :: rest) = afterCR rest := by
          unfold splitAdv afterCR
          rw [if_neg (show ¬(('\r' :: rest).getD 0 ' ' = '\n') by simp)]
          cases rest with
          | nil =>
            rw [if_neg (by simp), if_neg (by simp)]
            simp
          | cons d rest2 =>
            by_cases hd : d = '\n'
            · subst hd
              rw [if_pos ⟨by simp, by simp⟩, if_pos (by simp)]
              simp
            · rw [if_neg (by simp [hd]), if_neg (by simp [hd])]
              simp
        simp [hadv]
      · rw [regexSplitAux]
        rw [if_neg hn, if_neg hr]
        rw [ih (c :: acc)]
        have hidx : indexAnyCRLF (c :: rest) = (indexAnyCRLF rest).map (· + 1) := by
          simp only [indexAnyCRLF]
          rw [if_neg (by simp [hr, hn])]
        cases hx : indexAnyCRLF rest with
        | none =>
          rw [hidx, hx]
          simp
        | some j =>
          rw [hidx, hx]
          have ht : (c :: rest).take (j + 1) = c :: rest.take j := by simp
          have hdr : List.drop (splitAdv (c :: rest) (j + 1)) (c :: rest) =
              List.drop (splitAdv rest j) rest := by
            rw [splitAdv_cons]
            simp
          show _ = (acc.reverse ++ List.take (j + 1) (c :: rest)) ::
              regexSplitAux (List.drop (splitAdv (c :: rest) (j + 1)) (c :: rest)) []
          rw [ht, hdr]
          simp

/-- Once the reader is drained (rest = []), the scanner yields exactly the
claim-side regex split of the window, provided the window fits the buffer
and is shorter than MaxScanTokenSize (both automatic at EOF). -/
theorem run_rest_nil : ∀ (fuel : Nat) (w : List Char) (c : Nat) (eof : Bool),
    (eof = true ∨ (w.length ≤ c ∧ w.length < 65536)) →
    w.length + (65537 - c) + (if eof = true then 0 else 1) + 2 ≤ fuel →
    run fuel w c [] eof = .done (regexSplitAux w []) := by
  intro fuel
  induction fuel with
  | zero =>
    intro w c eof hcond hfuel
    omega
  | succ f ih =>
    intro w c eof hcond hfuel
    cases hidx : indexAnyCRLF w with
    | some i =>
      have hlt := indexAnyCRLF_some_lt hidx
      have hadv1 := splitAdv_pos w i
      have hadv2 := splitAdv_le hidx
      rw [run_step_token f c [] eof hidx]
      have hrec : run f (w.drop (splitAdv w i)) c [] eof =
          .done (regexSplitAux (w.drop (splitAdv w i)) []) := by
        apply ih
        · cases hcond with
          | inl h => exact Or.inl h
          | inr h =>
            refine Or.inr ⟨?_, ?_⟩
            · rw [List.length_drop]
              omega
            · rw [List.length_drop]
              omega
        · have hld := List.length_drop (splitAdv w i) w
          by_cases heof : eof = true
          · simp only [heof, if_pos rfl] at hfuel ⊢
            omega
          · simp only [if_neg heof] at hfuel ⊢
            omega
      rw [hrec]
      rw [regexSplitAux_spec w [], hidx]
      simp
    | none =>
      cases eof with
      | true =>
        by_cases hw : w = []
        · subst hw
          rw [run_step_fin_nil f c []]
          simp [regexSplitAux]
        · rw [run_step_final f c [] hidx hw]
          have hrec : run f [] c [] true = .done (regexSplitAux [] []) := by
            apply ih
            · exact Or.inl rfl
            · have h1 : 1 ≤ w.length := by
                cases w with
                | nil => exact absurd rfl hw
                | cons a l => simp
              simp only [List.length_nil]
              simp only [if_pos rfl] at hfuel ⊢
              omega
          rw [hrec]
          rw [regexSplitAux_spec w [], hidx]
          simp [hw, regexSplitAux]
      | false =>
        have hlen : w.length ≤ c ∧ w.length < 65536 := by
          cases hcond with
          | inl h => exact absurd h (by simp)
          | inr h => exact h
        by_cases hcle : c ≤ w.length
        · have hc65 : c < 65536 := by omega
          rw [run_step_grow f [] hidx hcle hc65]
          apply ih
          · exact Or.inr ⟨by have := newCap_lt hc65; omega, hlen.2⟩
          · have h1 := newCap_lt hc65
            have h2 := newCap_le c
            simp only [if_neg (by simp : ¬false = true)] at hfuel ⊢
            omega
        · rw [run_step_eof f hidx (by omega)]
          apply ih
          · exact Or.inl rfl
          · have h0 : (if (true : Bool) = true then (0 : Nat) else 1) = 0 := by simp
            have h1 : (if (false : Bool) = true then (0 : Nat) else 1) = 1 := by simp
            rw [h0]
            rw [h1] at hfuel
            omega

/-! Lemmas evaluating the scanner on replicate-shaped inputs, used by the
concrete counterexamples. -/

theorem indexAnyCRLF_replicate (n : Nat) :
    indexAnyCRLF (List.replicate n 'a') = none := by
  induction n with
  | zero => simp [indexAnyCRLF]
  | succ m ih =>
    rw [List.replicate_succ]
    simp only [indexAnyCRLF]
    rw [if_neg (by simp), ih]
    simp

theorem indexAnyCRLF_replicate_append (n : Nat) (l : List Char) :
    indexAnyCRLF (List.replicate n 'a' ++ l) = (indexAnyCRLF l).map (· + n) := by
  induction n with
  | zero =>
    simp only [List.replicate_zero, List.nil_append]
    cases hx : indexAnyCRLF l with
    | none => rfl
    | some j => rfl
  | succ m ih =>
    rw [List.replicate_succ, List.cons_append]
    simp only [indexAnyCRLF]
    rw [if_neg (by simp), ih]
    cases hx : indexAnyCRLF l with
    | none => rfl
    | some j => rfl

/-- The scanner agrees with the claim-side regex split whenever the whole
input fits into the initial 4096-byte buffer allocation, i.e. whenever the
first read delivers the entire input. -/
theorem scanLines_eq_regexSplit (b : List Char) (h : b.length ≤ 4096) :
    scanLines b = .done (regexSplit b) := by
  unfold scanLines regexSplit
  have hF : 2 * b.length + 65600 = (2 * b.length + 65599) + 1 := by omega
  rw [hF]
  rw [run_step_grow (2 * b.length + 65599) b
    (show indexAnyCRLF ([] : List Char) = none from rfl) (by simp) (by norm_num)]
  have hcap : newCap 0 = 4096 := by norm_num [newCap]
  rw [hcap]
  by_cases hb : b = []
  · subst hb
    apply run_rest_nil
    · exact Or.inr ⟨by simp, by simp⟩
    · have h1 : (if (false : Bool) = true then (0 : Nat) else 1) = 1 := by simp
      rw [h1]
      simp
  · have hF2 : 2 * b.length + 65599 = (2 * b.length + 65598) + 1 := by omega
    rw [hF2]
    rw [run_step_read (2 * b.length + 65598)
      (show indexAnyCRLF ([] : List Char) = none from rfl) (by simp) hb]
    have ht : List.take (4096 - List.length ([] : List Char)) b = b := by
      apply List.take_of_length_le
      simpa using h
    have hd : List.drop (4096 - List.length ([] : List Char)) b = [] := by
      apply List.drop_eq_nil_iff.mpr
      simpa using h
    rw [ht, hd]
    simp only [List.nil_append]
    apply run_rest_nil
    · exact Or.inr ⟨by omega, by omega⟩
    · have h1 : (if (false : Bool) = true then (0 : Nat) else 1) = 1 := by simp
      rw [h1]
      omega

theorem scanLines_crlf_boundary :
    scanLines (List.replicate 4095 'a' ++ ['\r', '\n']) =
      RunRes.done [List.replicate 4095 'a', []] := by
  have hrl : (List.replicate 4095 'a').length = 4095 := List.length_replicate 4095 'a'
  have hlen : (List.replicate 4095 'a' ++ ['\r', '\n']).length = 4097 := by
    rw [List.length_append, hrl]
    decide
  have hw1idx : indexAnyCRLF (List.replicate 4095 'a' ++ ['\r']) = some 4095 := by
    rw [indexAnyCRLF_replicate_append]
    rfl
  have hw1len : (List.replicate 4095 'a' ++ ['\r']).length = 4096 := by
    rw [List.length_append, hrl]
    decide
  have hg1 : (List.replicate 4095 'a' ++ ['\r']).getD 4095 ' ' = '\r' := by
    rw [List.getD_eq_getElem?_getD, List.getElem?_append_right (by rw [hrl]), hrl]
    rfl
  have hadv1 : splitAdv (List.replicate 4095 'a' ++ ['\r']) 4095 = 4096 := by
    unfold splitAdv
    rw [hg1, hw1len]
    rw [if_neg (by decide), if_neg (fun hcon => absurd hcon.1 (by omega))]
  have htk1 : (List.replicate 4095 'a' ++ ['\r']).take 4095 = List.replicate 4095 'a' :=
    List.take_left' hrl
  have hdp1 : (List.replicate 4095 'a' ++ ['\r']).drop 4096 = [] :=
    List.drop_eq_nil_iff.mpr (by rw [List.length_append, hrl]; decide)
  have ht1 : List.take 4096 (List.replicate 4095 'a' ++ ['\r', '\n']) =
      List.replicate 4095 'a' ++ ['\r'] := by
    rw [List.take_append_eq_append_take,
      List.take_of_length_le (le_of_eq_of_le hrl (by omega)), hrl]
    rfl
  have hd1 : List.drop 4096 (List.replicate 4095 'a' ++ ['\r', '\n']) = ['\n'] := by
    rw [List.drop_append_eq_append_drop]
    rw [show List.drop 4096 (List.replicate 4095 'a') = [] from by
      rw [List.drop_replicate]
      rfl]
    rw [hrl]
    rfl
  have h5 : run 73790 ['\n'] 4096 [] false = RunRes.done [[]] := by
    rw [run_rest_nil 73790 ['\n'] 4096 false (Or.inr ⟨by norm_num, by norm_num⟩) ?hf]
    case hf =>
      have h1 : (if (false : Bool) = true then (0 : Nat) else 1) = 1 := by simp
      rw [h1]
      norm_num
    rw [regexSplitAux]
    rw [if_pos rfl]
    rw [regexSplitAux]
    simp
  have h4 : run 73791 [] 4096 ['\n'] false = RunRes.done [[]] := by
    have hF : (73791 : Nat) = 73790 + 1 := by norm_num
    rw [hF]
    rw [run_step_read 73790 (show indexAnyCRLF ([] : List Char) = none from rfl)
      (by norm_num) (by simp)]
    simp only [List.length_nil, Nat.sub_zero, List.nil_append]
    rw [show List.take 4096 ['\n'] = ['\n'] from rfl, show List.drop 4096 ['\n'] = [] from rfl]
    exact h5
  have h3 : run 73792 (List.replicate 4095 'a' ++ ['\r']) 4096 ['\n'] false =
      RunRes.done [List.replicate 4095 'a', []] := by
    have hF : (73792 : Nat) = 73791 + 1 := by norm_num
    rw [hF]
    rw [run_step_token 73791 4096 ['\n'] false hw1idx]
    rw [hadv1, htk1, hdp1, h4]
  have hbne : List.replicate 4095 'a' ++ ['\r', '\n'] ≠ [] := by
    intro hcon
    rw [hcon] at hlen
    exact absurd hlen (by decide)
  have h2 : run 73793 [] 4096 (List.replicate 4095 'a' ++ ['\r', '\n']) false =
      RunRes.done [List.replicate 4095 'a', []] := by
    have hF : (73793 : Nat) = 73792 + 1 := by norm_num
    rw [hF]
    rw [run_step_read 73792 (show indexAnyCRLF ([] : List Char) = none from rfl)
      (by norm_num) hbne]
    simp only [List.length_nil, Nat.sub_zero, List.nil_append]
    rw [ht1, hd1]
    exact h3
  unfold scanLines
  rw [hlen]
  have hF : 2 * 4097 + 65600 = 73793 + 1 := by norm_num
  rw [hF]
  rw [run_step_grow 73793 (List.replicate 4095 'a' ++ ['\r', '\n'])
    (show indexAnyCRLF ([] : List Char) = none from rfl) (by simp) (by norm_num)]
  rw [show newCap 0 = 4096 by norm_num [newCap]]
  exact h2

theorem regexSplit_crlf_boundary :
    regexSplit (List.replicate 4095 'a' ++ ['\r', '\n']) = [List.replicate 4095 'a'] := by
  have hrl : (List.replicate 4095 'a').length = 4095 := List.length_replicate 4095 'a'
  have hlen : (List.replicate 4095 'a' ++ ['\r', '\n']).length = 4097 := by
    rw [List.length_append, hrl]
    decide
  have hidxc : indexAnyCRLF (List.replicate 4095 'a' ++ ['\r', '\n']) = some 4095 := by
    rw [indexAnyCRLF_replicate_append]
    rfl
  have hg2 : (List.replicate 4095 'a' ++ ['\r', '\n']).getD 4095 ' ' = '\r' := by
    rw [List.getD_eq_getElem?_getD, List.getElem?_append_right (by rw [hrl]), hrl]
    rfl
  have hg3 : (List.replicate 4095 'a' ++ ['\r', '\n']).getD 4096 ' ' = '\n' := by
    rw [List.getD_eq_getElem?_getD,
      List.getElem?_append_right (le_of_eq_of_le hrl (by omega)), hrl]
    rfl
  have hadvc : splitAdv (List.replicate 4095 'a' ++ ['\r', '\n']) 4095 = 4097 := by
    unfold splitAdv
    rw [hg2, hg3, hlen]
    rw [if_neg (by decide), if_pos ⟨by norm_num, rfl⟩]
  have htkc : (List.replicate 4095 'a' ++ ['\r', '\n']).take 4095 = List.replicate 4095 'a' :=
    List.take_left' hrl
  have hdpc : (List.replicate 4095 'a' ++ ['\r', '\n']).drop 4097 = [] :=
    List.drop_eq_nil_iff.mpr (by rw [hlen])
  unfold regexSplit
  rw [regexSplitAux_spec, hidxc]
  show (List.reverse [] ++ (List.replicate 4095 'a' ++ ['\r', '\n']).take 4095) ::
      regexSplitAux ((List.replicate 4095 'a' ++ ['\r', '\n']).drop
        (splitAdv (List.replicate 4095 'a' ++ ['\r', '\n']) 4095)) [] = _
  rw [hadvc, htkc, hdpc]
  rw [regexSplitAux]
  rw [if_pos rfl, List.reverse_nil, List.nil_append]

/-- The scanner can only fail with ErrTooLong after filling the whole
65536-byte buffer with terminator-free bytes; if no 65536-byte window of the
input is free of \r and \n, every state whose window and pending bytes form
a suffix of the input runs to completion. -/
theorem run_done_of_no_long_run (b : List Char)
    (hb : ∀ k, indexAnyCRLF ((b.drop k).take 65536) = none → (b.drop k).length < 65536) :
    ∀ (fuel : Nat) (w : List Char) (c : Nat) (rest : List Char) (eof : Bool),
    (∃ k, w ++ rest = b.drop k) → w.length ≤ c → c ≤ 65536 →
    2 * rest.length + w.length + (65537 - c) + (if eof = true then 0 else 1) + 2 ≤ fuel →
    ∃ l, run fuel w c rest eof = .done l := by
  intro fuel
  induction fuel with
  | zero =>
    intro w c rest eof hk hwc hc hfuel
    omega
  | succ f ih =>
    intro w c rest eof hk hwc hc hfuel
    obtain ⟨k, hkeq⟩ := hk
    cases hidx : indexAnyCRLF w with
    | some i =>
      have hlt := indexAnyCRLF_some_lt hidx
      have hadv1 := splitAdv_pos w i
      have hadv2 := splitAdv_le hidx
      rw [run_step_token f c rest eof hidx]
      have hk2 : w.drop (splitAdv w i) ++ rest = b.drop (k + splitAdv w i) := by
        rw [← List.drop_append_of_le_length hadv2, hkeq, List.drop_drop]
      have hrec : ∃ l, run f (w.drop (splitAdv w i)) c rest eof = .done l := by
        apply ih
        · exact ⟨k + splitAdv w i, hk2⟩
        · have := List.length_drop (splitAdv w i) w
          omega
        · exact hc
        · have := List.length_drop (splitAdv w i) w
          omega
      obtain ⟨l, hl⟩ := hrec
      rw [hl]
      exact ⟨w.take i :: l, rfl⟩
    | none =>
      cases eof with
      | true =>
        by_cases hw : w = []
        · subst hw
          rw [run_step_fin_nil f c rest]
          exact ⟨[], rfl⟩
        · rw [run_step_final f c rest hidx hw]
          have hlw : 1 ≤ w.length := by
            cases w with
            | nil => exact absurd rfl hw
            | cons a l => simp
          have hrec : ∃ l, run f [] c rest true = .done l := by
            apply ih
            · refine ⟨k + w.length, ?_⟩
              rw [List.nil_append, ← List.drop_drop, ← hkeq, List.drop_append_of_le_length
                (le_refl w.length), List.drop_length, List.nil_append]
            · simp
            · exact hc
            · simp only [List.length_nil]
              norm_num at hfuel ⊢
              omega
          obtain ⟨l, hl⟩ := hrec
          rw [hl]
          exact ⟨w :: l, rfl⟩
      | false =>
        by_cases hcle : c ≤ w.length
        · have hweq : w.length = c := by omega
          by_cases h65 : 65536 ≤ c
          · exfalso
            have hc65 : c = 65536 := by omega
            have hw65 : w.length = 65536 := by omega
            have hwtake : w = (b.drop k).take 65536 := by
              rw [← hkeq, List.take_append_eq_append_take, ← hw65,
                List.take_length, Nat.sub_self, List.take_zero, List.append_nil]
            have hnone : indexAnyCRLF ((b.drop k).take 65536) = none := by
              rw [← hwtake]
              exact hidx
            have hshort := hb k hnone
            have hlen : (b.drop k).length = w.length + rest.length := by
              rw [← hkeq, List.length_append]
            omega
          · have hc65 : c < 65536 := by omega
            rw [run_step_grow f rest hidx hcle hc65]
            apply ih
            · exact ⟨k, hkeq⟩
            · have := newCap_lt hc65
              omega
            · exact newCap_le c
            · have h1 := newCap_lt hc65
              have h2 := newCap_le c
              omega
        · have hlt : w.length < c := by omega
          by_cases hrest : rest = []
          · subst hrest
            rw [run_step_eof f hidx hlt]
            apply ih
            · exact ⟨k, by simpa using hkeq⟩
            · omega
            · exact hc
            · have h0 : (if (true : Bool) = true then (0 : Nat) else 1) = 0 := by simp
              have h1 : (if (false : Bool) = true then (0 : Nat) else 1) = 1 := by simp
              rw [h0]
              rw [h1] at hfuel
              omega
          · rw [run_step_read f hidx hlt hrest]
            have hn1 : 1 ≤ c - w.length := by omega
            have hrlen : 1 ≤ rest.length := by
              cases rest with
              | nil => exact absurd rfl hrest
              | cons a l => simp
            apply ih
            · refine ⟨k, ?_⟩
              rw [List.append_assoc, List.take_append_drop]
              exact hkeq
            · rw [List.length_append, List.length_take]
              omega
            · exact hc
            · rw [List.length_append, List.length_take, List.length_drop]
              omega

theorem scanLines_tooLong_65536 :
    scanLines (List.replicate 65536 'a') = RunRes.tooLong := by
  have hlen : ∀ n : Nat, (List.replicate n 'a').length = n := fun n =>
    List.length_replicate n 'a'
  have hne : ∀ n : Nat, 0 < n → List.replicate n 'a' ≠ [] := by
    intro n hn hcon
    have hc := congrArg List.length hcon
    rw [hlen] at hc
    simp at hc
    omega
  have e1 : run 196672 [] 0 (List.replicate 65536 'a') false =
      run 196671 [] 4096 (List.replicate 65536 'a') false := by
    rw [show (196672 : Nat) = 196671 + 1 from by norm_num]
    rw [run_step_grow 196671 (List.replicate 65536 'a')
      (show indexAnyCRLF ([] : List Char) = none from rfl) (by simp) (by norm_num)]
    rw [show newCap 0 = 4096 from by norm_num [newCap]]
  have e2 : run 196671 [] 4096 (List.replicate 65536 'a') false =
      run 196670 (List.replicate 4096 'a') 4096 (List.replicate 61440 'a') false := by
    rw [show (196671 : Nat) = 196670 + 1 from by norm_num]
    rw [run_step_read 196670 (show indexAnyCRLF ([] : List Char) = none from rfl)
      (by norm_num) (hne 65536 (by norm_num))]
    simp only [List.length_nil, Nat.sub_zero, List.nil_append]
    rw [List.take_replicate, List.drop_replicate]
    rw [show (min 4096 65536 : Nat) = 4096 from by norm_num,
      show (65536 - 4096 : Nat) = 61440 from by norm_num]
  have e3 : run 196670 (List.replicate 4096 'a') 4096 (List.replicate 61440 'a') false =
      run 196669 (List.replicate 4096 'a') 8192 (List.replicate 61440 'a') false := by
    rw [show (196670 : Nat) = 196669 + 1 from by norm_num]
    rw [run_step_grow 196669 (List.replicate 61440 'a') (indexAnyCRLF_replicate 4096)
      (by rw [hlen]) (by norm_num)]
    rw [show newCap 4096 = 8192 from by norm_num [newCap]]
  have e4 : run 196669 (List.replicate 4096 'a') 8192 (List.replicate 61440 'a') false =
      run 196668 (List.replicate 8192 'a') 8192 (List.replicate 57344 'a') false := by
    rw [show (196669 : Nat) = 196668 + 1 from by norm_num]
    rw [run_step_read 196668 (indexAnyCRLF_replicate 4096)
      (by rw [hlen]; omega) (hne 61440 (by norm_num))]
    rw [hlen, List.take_replicate, List.drop_replicate]
    rw [show (8192 - 4096 : Nat) = 4096 from by norm_num]
    rw [show (min 4096 61440 : Nat) = 4096 from by norm_num]
    rw [List.append_replicate_replicate]
  have e5 : run 196668 (List.replicate 8192 'a') 8192 (List.replicate 57344 'a') false =
      run 196667 (List.replicate 8192 'a') 16384 (List.replicate 57344 'a') false := by
    rw [show (196668 : Nat) = 196667 + 1 from by norm_num]
    rw [run_step_grow 196667 (List.replicate 57344 'a') (indexAnyCRLF_replicate 8192)
      (by rw [hlen]) (by norm_num)]
    rw [show newCap 8192 = 16384 from by norm_num [newCap]]
  have e6 : run 196667 (List.replicate 8192 'a') 16384 (List.replicate 57344 'a') false =
      run 196666 (List.replicate 16384 'a') 16384 (List.replicate 49152 'a') false := by
    rw [show (196667 : Nat) = 196666 + 1 from by norm_num]
    rw [run_step_read 196666 (indexAnyCRLF_replicate 8192)
      (by rw [hlen]; omega) (hne 57344 (by norm_num))]
    rw [hlen, List.take_replicate, List.drop_replicate]
    rw [show (16384 - 8192 : Nat) = 8192 from by norm_num]
    rw [show (min 8192 57344 : Nat) = 8192 from by norm_num]
    rw [List.append_replicate_replicate]
  have e7 : run 196666 (List.replicate 16384 'a') 16384 (List.replicate 49152 'a') false =
      run 196665 (List.replicate 16384 'a') 32768 (List.replicate 49152 'a') false := by
    rw [show (196666 : Nat) = 196665 + 1 from by norm_num]
    rw [run_step_grow 196665 (List.replicate 49152 'a') (indexAnyCRLF_replicate 16384)
      (by rw [hlen]) (by norm_num)]
    rw [show newCap 16384 = 32768 from by norm_num [newCap]]
  have e8 : run 196665 (List.replicate 16384 'a') 32768 (List.replicate 49152 'a') false =
      run 196664 (List.replicate 32768 'a') 32768 (List.replicate 32768 'a') false := by
    rw [show (196665 : Nat) = 196664 + 1 from by norm_num]
    rw [run_step_read 196664 (indexAnyCRLF_replicate 16384)
      (by rw [hlen]; omega) (hne 49152 (by norm_num))]
    rw [hlen, List.take_replicate, List.drop_replicate]
    rw [show (32768 - 16384 : Nat) = 16384 from by norm_num]
    rw [show (min 16384 49152 : Nat) = 16384 from by norm_num]
    rw [List.append_replicate_replicate]
  have e9 : run 196664 (List.replicate 32768 'a') 32768 (List.replicate 32768 'a') false =
      run 196663 (List.replicate 32768 'a') 65536 (List.replicate 32768 'a') false := by
    rw [show (196664 : Nat) = 196663 + 1 from by norm_num]
    rw [run_step_grow 196663 (List.replicate 32768 'a') (indexAnyCRLF_replicate 32768)
      (by rw [hlen]) (by norm_num)]
    rw [show newCap 32768 = 65536 from by norm_num [newCap]]
  have e10 : run 196663 (List.replicate 32768 'a') 65536 (List.replicate 32768 'a') false =
      run 196662 (List.replicate 65536 'a') 65536 [] false := by
    rw [show (196663 : Nat) = 196662 + 1 from by norm_num]
    rw [run_step_read 196662 (indexAnyCRLF_replicate 32768)
      (by rw [hlen]; omega) (hne 32768 (by norm_num))]
    rw [hlen, List.take_replicate, List.drop_replicate]
    rw [show (65536 - 32768 : Nat) = 32768 from by norm_num]
    rw [show (min 32768 32768 : Nat) = 32768 from by norm_num]
    rw [List.append_replicate_replicate]
    rw [show (32768 - 32768 : Nat) = 0 from by norm_num]
    rw [List.replicate_zero]
  have e11 : run 196662 (List.replicate 65536 'a') 65536 [] false = RunRes.tooLong := by
    rw [show (196662 : Nat) = 196661 + 1 from by norm_num]
    rw [run_step_tooLong 196661 [] (indexAnyCRLF_replicate 65536)
      (by rw [hlen]) (by norm_num)]
  unfold scanLines
  rw [hlen]
  rw [show 2 * 65536 + 65600 = 196672 from by norm_num]
  rw [e1, e2, e3, e4, e5, e6, e7, e8, e9, e10, e11]

/-! Lemmas about the crawl engine Get. -/

theorem Get_step_transport (send : List Char → Option HTTPRes) (now fuel : Nat)
    (req : Request) (hs : send req.url = none) :
    Get send now (fuel + 1) req = ([req.url], req, some (none, some .transport)) := by
  simp only [Get, hs]

theorem Get_step_redirect (send : List Char → Option HTTPRes) (now fuel : Nat)
    (req : Request) (res : HTTPRes) (loc : List Char) (hs : send req.url = some res)
    (h3 : 300 ≤ res.statusCode) (h4 : res.statusCode < 400) (hl : res.location = some loc) :
    Get send now (fuel + 1) req =
      (req.url :: (Get send now fuel { req with url := loc }).1,
        (Get send now fuel { req with url := loc }).2.1,
        (Get send now fuel { req with url := loc }).2.2) := by
  simp only [Get, hs]
  rw [if_pos ⟨h3, h4⟩]
  simp only [hl]

theorem Get_step_client (send : List Char → Option HTTPRes) (now fuel : Nat)
    (req : Request) (res : HTTPRes) (hs : send req.url = some res)
    (h1 : 400 ≤ res.statusCode) (h2 : res.statusCode < 500) :
    Get send now (fuel + 1) req =
      ([req.url], req, some (none, some (.client res.statusCode req.domain req.url))) := by
  simp only [Get, hs]
  rw [if_neg (fun hc => by omega), if_pos ⟨h1, h2⟩]

theorem Get_step_server (send : List Char → Option HTTPRes) (now fuel : Nat)
    (req : Request) (res : HTTPRes) (hs : send req.url = some res)
    (h1 : ¬(300 ≤ res.statusCode ∧ res.statusCode < 400))
    (h2 : ¬(400 ≤ res.statusCode ∧ res.statusCode < 500))
    (h3 : res.statusCode ≠ 200) :
    Get send now (fuel + 1) req =
      ([req.url], req, some (none, some (.server res.statusCode req.domain req.url))) := by
  simp only [Get, hs]
  rw [if_neg h1, if_neg h2, if_neg h3]

theorem Get_step_success (send : List Char → Option HTTPRes) (now fuel : Nat)
    (req : Request) (res : HTTPRes) (body : List Char) (recs : Records)
    (hs : send req.url = some res) (h200 : res.statusCode = 200)
    (hb : res.body = some body) (hp : ParseBody body = some recs) :
    Get send now (fuel + 1) req =
      ([req.url], req, some (some {
          request := req
          records := recs
          expires :=
            match res.expiresAt with
            | some e => e
            | none => now + sevenDays }, none)) := by
  have hn3 : ¬(300 ≤ res.statusCode ∧ res.statusCode < 400) := by
    rw [h200]
    omega
  have hn4 : ¬(400 ≤ res.statusCode ∧ res.statusCode < 500) := by
    rw [h200]
    omega
  simp only [Get, hs]
  rw [if_neg hn3, if_neg hn4, if_pos h200]
  simp only [hb, hp]

theorem Get_trace_head (send : List Char → Option HTTPRes) (now fuel : Nat)
    (req : Request) :
    ∃ t, (Get send now (fuel + 1) req).1 = req.url :: t := by
  simp only [Get]
  cases hs : send req.url with
  | none =>
    simp only [hs]
    exact ⟨[], rfl⟩
  | some res =>
    simp only [hs]
    split
    · split
      · exact ⟨[], rfl⟩
      · exact ⟨_, rfl⟩
    · split
      · exact ⟨[], rfl⟩
      · split
        · split
          · exact ⟨[], rfl⟩
          · split
            · exact ⟨[], rfl⟩
            · exact ⟨[], rfl⟩
        · exact ⟨[], rfl⟩

theorem Get_domain (send : List Char → Option HTTPRes) (now : Nat) :
    ∀ (fuel : Nat) (req : Request),
      ((Get send now fuel req).2.1).domain = req.domain := by
  intro fuel
  induction fuel with
  | zero => intro req; rfl
  | succ f ih =>
    intro req
    simp only [Get]
    cases hs : send req.url with
    | none =>
      simp only [hs]
    | some res =>
      simp only [hs]
      split
      · split
        · rfl
        · exact ih _
      · split
        · rfl
        · split
          · split
            · rfl
            · split
              · rfl
              · rfl
          · rfl

theorem Get_outcome_cases (send : List Char → Option HTTPRes) (now : Nat) :
    ∀ (fuel : Nat) (req : Request),
      (Get send now fuel req).2.2 = none ∨
      (∃ e, (Get send now fuel req).2.2 = some (none, some e)) ∨
      (∃ r, (Get send now fuel req).2.2 = some (some r, none) ∧
        r.request = (Get send now fuel req).2.1) := by
  intro fuel
  induction fuel with
  | zero => intro req; exact Or.inl rfl
  | succ f ih =>
    intro req
    simp only [Get]
    cases hs : send req.url with
    | none =>
      simp only [hs]
      exact Or.inr (Or.inl ⟨CrawlErr.transport, rfl⟩)
    | some res =>
      simp only [hs]
      split
      · split
        · exact Or.inr (Or.inl ⟨CrawlErr.redirect, rfl⟩)
        · exact ih _
      · split
        · exact Or.inr (Or.inl ⟨_, rfl⟩)
        · split
          · split
            · exact Or.inr (Or.inl ⟨CrawlErr.read, rfl⟩)
            · split
              · exact Or.inr (Or.inl ⟨CrawlErr.parse, rfl⟩)
              · exact Or.inr (Or.inr ⟨_, rfl, rfl⟩)
          · exact Or.inr (Or.inl ⟨_, rfl⟩)

theorem ParseBody_eq (b : List Char) :
    ParseBody b =
      match scanLines b with
      | RunRes.done l => some (parseRecords l)
      | RunRes.outOfFuel => none
      | RunRes.tooLong => none := by
  unfold ParseBody
  cases scanLines b <;> rfl

/-! Claim theorems. -/

/-- C1 (amended): for every byte input of length at most 4096 -- i.e. whenever
the whole input fits into the scanner's initial 4096-byte read -- the Line
Splitter used by ParseBody yields exactly the logical line sequence obtained
by splitting the input on the pattern \r?\n|\r, with any final unterminated
fragment included as the last line and zero lines for empty input.  (The
unrestricted claim is refuted by scanLines_ne_regexSplit_at_boundary: a \r\n
pair straddling the 4096-byte read boundary is consumed as two boundaries.) -/
theorem parseBody_splitter_matches_regex (b : List Char) (h : b.length ≤ 4096) :
    scanLines b = RunRes.done (regexSplit b) :=
  scanLines_eq_regexSplit b h

/-- C1 witness: the amended theorem applied to the concrete input a\r\nb. -/
theorem parseBody_splitter_matches_regex_witness :
    (['a', '\r', '\n', 'b'] : List Char).length ≤ 4096 ∧
      scanLines ['a', '\r', '\n', 'b'] = RunRes.done (regexSplit ['a', '\r', '\n', 'b']) :=
  ⟨by norm_num, parseBody_splitter_matches_regex ['a', '\r', '\n', 'b'] (by norm_num)⟩

/-- C1 counterexample: on the 4097-byte input of 4095 a-bytes followed by
\r\n, the Line Splitter used by ParseBody emits a spurious empty line (the
\r\n pair straddles the scanner's first 4096-byte read and is treated as two
boundaries), so it does not match the \r?\n|\r split. -/
theorem scanLines_ne_regexSplit_at_boundary :
    scanLines (List.replicate 4095 'a' ++ ['\r', '\n']) ≠
      RunRes.done (regexSplit (List.replicate 4095 'a' ++ ['\r', '\n'])) := by
  rw [scanLines_crlf_boundary, regexSplit_crlf_boundary]
  intro hcon
  simp [-List.reduceReplicate] at hcon

/-- C2: parsing the exact bytes of the four-line example yields exactly one
Data Record (example.com, 1234, DIRECT, no certification authority) followed
by one Variable Record (CONTACT = adops@example.com); the comment line and
the blank line contribute zero records. -/
theorem parseBody_c2_example :
    ParseBody ((r"example.com, 1234, DIRECT").toList ++
        ('\n' :: ((r"#comment").toList ++
          ('\n' :: ('\n' :: ((r"CONTACT=adops@example.com").toList ++ ['\n'])))))) =
      some [Record.dataRecord (r"example.com").toList (r"1234").toList Rel.direct none,
        Record.variableRecord (r"CONTACT").toList (r"adops@example.com").toList] := by
  decide

/-- C3 (amended): ParseBody returns a record sequence (nil error) for every
input in which every 65536-byte window contains a \r or \n -- equivalently,
no terminator-free run of 65536 bytes exists; inputs violating this can make
the underlying scanner fail with bufio.ErrTooLong, which ParseBody returns
as a non-nil error (see parseBody_errTooLong_at_65536_run). -/
theorem parseBody_total_of_no_long_run (b : List Char)
    (h : ∀ k, k ≤ b.length → indexAnyCRLF ((b.drop k).take 65536) = none →
      (b.drop k).length < 65536) :
    ∃ recs, ParseBody b = some recs := by
  have hb : ∀ k, indexAnyCRLF ((b.drop k).take 65536) = none → (b.drop k).length < 65536 := by
    intro k hk
    by_cases hkb : k ≤ b.length
    · exact h k hkb hk
    · rw [List.drop_eq_nil_iff.mpr (by omega)]
      simp
  have hrun := run_done_of_no_long_run b hb (2 * b.length + 65600) [] 0 b false
    ⟨0, by simp⟩ (by simp) (by norm_num) ?hf
  case hf =>
    have h1 : (if (false : Bool) = true then (0 : Nat) else 1) = 1 := by simp
    rw [h1]
    simp only [List.length_nil]
    omega
  obtain ⟨l, hl⟩ := hrun
  refine ⟨parseRecords l, ?_⟩
  unfold ParseBody scanLines
  rw [hl]

/-- C3 witness: the amended theorem applied to the concrete input a\n. -/
theorem parseBody_total_of_no_long_run_witness :
    (∀ k, k ≤ (['a', '\n'] : List Char).length →
        indexAnyCRLF (((['a', '\n'] : List Char).drop k).take 65536) = none →
        ((['a', '\n'] : List Char).drop k).length < 65536) ∧
      ∃ recs, ParseBody ['a', '\n'] = some recs :=
  ⟨by decide, parseBody_total_of_no_long_run ['a', '\n'] (by decide)⟩

/-- C3 counterexample: on 65536 terminator-free bytes ParseBody returns a
non-nil error (bufio.ErrTooLong: the scanner's buffer reaches
MaxScanTokenSize with no token), so the Record Parser pipeline is not total. -/
theorem parseBody_errTooLong_at_65536_run :
    ParseBody (List.replicate 65536 'a') = none := by
  rw [ParseBody_eq, scanLines_tooLong_65536]

/-- C4: whenever a fetch inside Get returns a status in 300..399 and the
redirect target loc is extracted, the engine rewrites the request URL to loc
and continues exactly as a crawl of the rewritten request: the trace extends
by the current URL, the remaining state and outcome coincide with those of
the continuation, and the continuation's first fetch is loc -- exactly one
follow-up fetch to the new location before any further classification. -/
theorem get_redirect_one_followup (send : List Char → Option HTTPRes) (now fuel : Nat)
    (req : Request) (res : HTTPRes) (loc : List Char) (hs : send req.url = some res)
    (h3 : 300 ≤ res.statusCode) (h4 : res.statusCode < 400)
    (hl : res.location = some loc) :
    (Get send now (fuel + 2) req).1 =
        req.url :: (Get send now (fuel + 1) { req with url := loc }).1 ∧
      (Get send now (fuel + 2) req).2 = (Get send now (fuel + 1) { req with url := loc }).2 ∧
      ∃ t, (Get send now (fuel + 1) { req with url := loc }).1 = loc :: t := by
  have hstep := Get_step_redirect send now (fuel + 1) req res loc hs h3 h4 hl
  refine ⟨?_, ?_, ?_⟩
  · rw [show fuel + 2 = (fuel + 1) + 1 from rfl, hstep]
  · rw [show fuel + 2 = (fuel + 1) + 1 from rfl, hstep]
  · exact Get_trace_head send now fuel { req with url := loc }

/-- C4 witness: the theorem applied to a concrete 301-with-Location fetch. -/
theorem get_redirect_one_followup_witness :
    sendFixA reqFix.url = some ⟨301, some ['v'], none, none⟩ ∧
    300 ≤ (301 : Nat) ∧ (301 : Nat) < 400 ∧
    (⟨301, some ['v'], none, none⟩ : HTTPRes).location = some ['v'] ∧
    ((Get sendFixA 0 (0 + 2) reqFix).1 =
        reqFix.url :: (Get sendFixA 0 (0 + 1) { reqFix with url := ['v'] }).1 ∧
      (Get sendFixA 0 (0 + 2) reqFix).2 =
        (Get sendFixA 0 (0 + 1) { reqFix with url := ['v'] }).2 ∧
      ∃ t, (Get sendFixA 0 (0 + 1) { reqFix with url := ['v'] }).1 = ['v'] :: t) :=
  ⟨rfl, by norm_num, by norm_num, rfl,
    get_redirect_one_followup sendFixA 0 0 reqFix ⟨301, some ['v'], none, none⟩ ['v']
      rfl (by norm_num) (by norm_num) rfl⟩

/-- C5: a fetch answering 400..499 makes Get terminate immediately with a
ClientError carrying the status, domain and URL, a nil Response, and no
further fetch (the trace is the single fetched URL); statuses other than
200, 3xx and 4xx likewise terminate immediately with a ServerError and no
further fetch. -/
theorem get_client_error_terminal (send : List Char → Option HTTPRes) (now fuel : Nat)
    (req : Request) (res : HTTPRes) (hs : send req.url = some res) :
    (400 ≤ res.statusCode → res.statusCode < 500 →
      Get send now (fuel + 1) req =
        ([req.url], req, some (none, some (.client res.statusCode req.domain req.url)))) ∧
    (res.statusCode < 300 → res.statusCode ≠ 200 →
      Get send now (fuel + 1) req =
        ([req.url], req, some (none, some (.server res.statusCode req.domain req.url)))) ∧
    (500 ≤ res.statusCode →
      Get send now (fuel + 1) req =
        ([req.url], req, some (none, some (.server res.statusCode req.domain req.url)))) := by
  refine ⟨?_, ?_, ?_⟩
  · intro h1 h2
    exact Get_step_client send now fuel req res hs h1 h2
  · intro h1 h2
    exact Get_step_server send now fuel req res hs (by omega) (by omega) h2
  · intro h1
    exact Get_step_server send now fuel req res hs (by omega) (by omega) (by omega)

/-- C5 witness: the theorem applied to a concrete 404 fetch. -/
theorem get_client_error_terminal_witness :
    sendFixB reqFix.url = some ⟨404, none, none, none⟩ ∧
    Get sendFixB 0 (0 + 1) reqFix =
      ([reqFix.url], reqFix,
        some (none, some (CrawlErr.client 404 reqFix.domain reqFix.url))) :=
  ⟨rfl, (get_client_error_terminal sendFixB 0 0 reqFix ⟨404, none, none, none⟩ rfl).1
    (by norm_num) (by norm_num)⟩

/-- C6: on a successful crawl (status 200, readable body, body parsing fine)
Get returns a Response whose Expires is now plus 7 days (in seconds) when
parseExpires yields nothing, and is the parsed value verbatim when it
succeeds; in both cases the crawl itself succeeds, so an expiry-parse
failure is swallowed. -/
theorem get_expires_default_or_override (send : List Char → Option HTTPRes)
    (now fuel : Nat) (req : Request) (res : HTTPRes) (body : List Char) (recs : Records)
    (hs : send req.url = some res) (h200 : res.statusCode = 200)
    (hb : res.body = some body) (hp : ParseBody body = some recs) :
    ∃ r, Get send now (fuel + 1) req = ([req.url], req, some (some r, none)) ∧
      (res.expiresAt = none → r.expires = now + sevenDays) ∧
      (∀ e, res.expiresAt = some e → r.expires = e) := by
  refine ⟨_, Get_step_success send now fuel req res body recs hs h200 hb hp, ?_, ?_⟩
  · intro he
    simp only [he]
  · intro e he
    simp only [he]

/-- C6 witness: the theorem applied to a concrete 200 fetch with no expiry
signal. -/
theorem get_expires_default_or_override_witness :
    sendFixC reqFix.url = some ⟨200, none, some ['x', '\n'], none⟩ ∧
    (⟨200, none, some ['x', '\n'], none⟩ : HTTPRes).statusCode = 200 ∧
    (⟨200, none, some ['x', '\n'], none⟩ : HTTPRes).body = some ['x', '\n'] ∧
    ParseBody ['x', '\n'] = some [] ∧
    (∃ r, Get sendFixC 7 (0 + 1) reqFix = ([reqFix.url], reqFix, some (some r, none)) ∧
      ((⟨200, none, some ['x', '\n'], none⟩ : HTTPRes).expiresAt = none →
        r.expires = 7 + sevenDays) ∧
      (∀ e, (⟨200, none, some ['x', '\n'], none⟩ : HTTPRes).expiresAt = some e →
        r.expires = e)) :=
  ⟨rfl, rfl, rfl, by decide,
    get_expires_default_or_override sendFixC 7 0 reqFix ⟨200, none, some ['x', '\n'], none⟩
      ['x', '\n'] [] rfl rfl rfl (by decide)⟩

/-- C7: Get enforces no maximum number of redirect hops -- for a transport
answering every fetch with a 3xx redirect carrying a target, the loop never
terminates: whatever iteration bound is allowed, no (Response, error) pair
is ever produced. -/
theorem get_diverges_on_redirect_cycle (send : List Char → Option HTTPRes) (now : Nat)
    (h : ∀ u, ∃ res loc, send u = some res ∧ 300 ≤ res.statusCode ∧
      res.statusCode < 400 ∧ res.location = some loc) :
    ∀ (fuel : Nat) (req : Request), (Get send now fuel req).2.2 = none := by
  intro fuel
  induction fuel with
  | zero => intro req; rfl
  | succ f ih =>
    intro req
    obtain ⟨res, loc, hs, h3, h4, hl⟩ := h req.url
    rw [Get_step_redirect send now f req res loc hs h3 h4 hl]
    exact ih _

/-- C7 witness: the theorem applied to the everywhere-301 transport. -/
theorem get_diverges_on_redirect_cycle_witness :
    (∀ u, ∃ res loc, sendFixD u = some res ∧ 300 ≤ res.statusCode ∧
        res.statusCode < 400 ∧ res.location = some loc) ∧
      (Get sendFixD 0 3 reqFix).2.2 = none :=
  ⟨fun _ => ⟨⟨301, some ['v'], none, none⟩, ['v'], rfl, by norm_num, by norm_num, rfl⟩,
    get_diverges_on_redirect_cycle sendFixD 0
      (fun _ => ⟨⟨301, some ['v'], none, none⟩, ['v'], rfl, by norm_num, by norm_num, rfl⟩)
      3 reqFix⟩

/-- C9: throughout a single crawl Get mutates at most the URL field of the
caller's Request: whatever the transport, time, fuel and outcome, the final
Request state differs from the original at most in its url field -- in
particular its Domain is unchanged. -/
theorem get_mutates_at_most_url (send : List Char → Option HTTPRes) (now fuel : Nat)
    (req : Request) :
    (Get send now fuel req).2.1 = { req with url := ((Get send now fuel req).2.1).url } := by
  have hd := Get_domain send now fuel req
  cases hfin : (Get send now fuel req).2.1 with
  | mk d u =>
    rw [hfin] at hd
    exact congrArg (fun x => Request.mk x u) hd

/-- C10: whenever Get terminates it returns exactly one of a Response and an
error -- the Response is present iff the error is absent -- and on success
the Response's Request field is the (threaded, possibly URL-rewritten)
request object, whose Domain is that of the original Request. -/
theorem get_returns_exactly_one (send : List Char → Option HTTPRes) (now fuel : Nat)
    (req : Request) (p : Option Response × Option CrawlErr)
    (h : (Get send now fuel req).2.2 = some p) :
    (p.1.isSome ↔ p.2 = none) ∧
      ∀ r, p.1 = some r → r.request = (Get send now fuel req).2.1 ∧
        r.request.domain = req.domain := by
  rcases Get_outcome_cases send now fuel req with h0 | ⟨e, he⟩ | ⟨r, hr, hreq⟩
  · rw [h0] at h
    exact absurd h (by simp)
  · rw [he] at h
    injection h with h2
    subst h2
    constructor
    · simp
    · intro r hcon
      simp at hcon
  · rw [hr] at h
    injection h with h2
    subst h2
    constructor
    · simp
    · intro r2 hr2
      simp only [Option.some.injEq] at hr2
      subst hr2
      refine ⟨hreq, ?_⟩
      rw [hreq]
      exact Get_domain send now fuel req

/-- C10 witness: the theorem applied to the terminating 404 crawl. -/
theorem get_returns_exactly_one_witness :
    (Get sendFixB 0 1 reqFix).2.2 =
      some ((none : Option Response),
        some (CrawlErr.client 404 reqFix.domain reqFix.url)) ∧
    ((((none : Option Response),
        some (CrawlErr.client 404 reqFix.domain reqFix.url)).1.isSome ↔
      ((none : Option Response),
        some (CrawlErr.client 404 reqFix.domain reqFix.url)).2 = none) ∧
      ∀ r, (((none : Option Response),
          some (CrawlErr.client 404 reqFix.domain reqFix.url))).1 = some r →
        r.request = (Get sendFixB 0 1 reqFix).2.1 ∧ r.request.domain = reqFix.domain) :=
  ⟨rfl, get_returns_exactly_one sendFixB 0 1 reqFix
    ((none : Option Response), some (CrawlErr.client 404 reqFix.domain reqFix.url)) rfl⟩

end Adstxt
